import Mathlib

/-!
Verification of the core of `simple_arbitrage_bot`, a two-venue paper-trading
arbitrage bot.  The Rust sources under `src/` are shallowly embedded below:
`rust_decimal::Decimal` values are modelled as exact rationals (`ℚ`), fallible
operations (Rust panics such as `Option::unwrap` on `None`, out-of-bounds
indexing, or an unrecognised message shape) are modelled by `Option`-valued
functions returning `none`, and the asynchronous main loop is modelled as a
state-transition function on the loop's mutable state.
-/

namespace ArbBot

/-- A price level (`BookEntry` in `src/exchange.rs`): a price and the resting
amount at that price.  `amount = 0` is the removal sentinel for delta
updates. -/
structure BookEntry where
  price : ℚ
  amount : ℚ
deriving DecidableEq, Repr

/-- Per-venue order book (`OrderBook` in `src/exchange.rs`): bids are kept
descending by price, asks ascending. -/
structure OrderBook where
  bids : List BookEntry
  asks : List BookEntry
deriving DecidableEq, Repr

/-- `OrderBook::new`. -/
def OrderBook.new : OrderBook := ⟨[], []⟩

/-- `OrderBook::best_ask`: the first element of the ask side. -/
def OrderBook.best_ask (book : OrderBook) : Option BookEntry := book.asks.head?

/-- `OrderBook::best_bid`: the first element of the bid side. -/
def OrderBook.best_bid (book : OrderBook) : Option BookEntry := book.bids.head?

/-- `OrderBookMessage` in `src/exchange.rs`. -/
inductive OrderBookMessage where
  | Snapshot (bids asks : List BookEntry)
  | AskUpdate (entry : BookEntry)
  | BidUpdate (entry : BookEntry)
deriving DecidableEq, Repr

/-- The in-place amount replacement `side[index].amount = entry.amount` at the
first index whose price matches (`iter().position(..)` in
`OrderBook::update`). -/
def replaceFirstAmount : List BookEntry → BookEntry → List BookEntry
  | [], _ => []
  | b :: rest, e =>
      if b.price = e.price then ⟨b.price, e.amount⟩ :: rest
      else b :: replaceFirstAmount rest e

/-- Comparator used to sort the bid side: descending by price
(`val2.price.partial_cmp(&val1.price)`). -/
def bidOrder (a b : BookEntry) : Prop := b.price ≤ a.price

/-- Comparator used to sort the ask side: ascending by price
(`val1.price.partial_cmp(&val2.price)`). -/
def askOrder (a b : BookEntry) : Prop := a.price ≤ b.price

instance : DecidableRel bidOrder := fun a b => by unfold bidOrder; infer_instance

instance : DecidableRel askOrder := fun a b => by unfold askOrder; infer_instance

instance : IsTotal BookEntry bidOrder := ⟨fun a b => le_total b.price a.price⟩

instance : IsTotal BookEntry askOrder := ⟨fun a b => le_total a.price b.price⟩

instance : IsTrans BookEntry bidOrder := ⟨fun _ _ _ hab hbc => le_trans hbc hab⟩

instance : IsTrans BookEntry askOrder := ⟨fun _ _ _ hab hbc => le_trans hab hbc⟩

/-- One arm of `OrderBook::update` for a single-level update: remove on the
zero-amount sentinel, replace the amount in place when the price is already
present, otherwise push the new entry and re-sort the side (Rust's stable
`sort_by`, modelled by the stable `List.insertionSort`). -/
def applyLevel (r : BookEntry → BookEntry → Prop) [DecidableRel r]
    (side : List BookEntry) (e : BookEntry) : List BookEntry :=
  if e.amount = 0 then
    side.eraseP (fun b => decide (b.price = e.price))
  else if side.any (fun b => decide (b.price = e.price)) then
    replaceFirstAmount side e
  else
    List.insertionSort r (side ++ [e])

/-- `OrderBook::update`: wholesale replacement on a snapshot, single-level
upsert-or-delete on a bid or ask update. -/
def OrderBook.update (book : OrderBook) : OrderBookMessage → OrderBook
  | .Snapshot bids asks => ⟨bids, asks⟩
  | .BidUpdate e => ⟨applyLevel bidOrder book.bids e, book.asks⟩
  | .AskUpdate e => ⟨book.bids, applyLevel askOrder book.asks e⟩

/-- Fold a message sequence into a book, one `OrderBook::update` at a time. -/
def OrderBook.applyAll (book : OrderBook) (msgs : List OrderBookMessage) : OrderBook :=
  msgs.foldl OrderBook.update book

/-- The bid side is strictly descending by price (this subsumes freedom from
duplicate prices). -/
def strictDesc (l : List BookEntry) : Prop :=
  (l.map BookEntry.price).Pairwise (· > ·)

/-- The ask side is strictly ascending by price. -/
def strictAsc (l : List BookEntry) : Prop :=
  (l.map BookEntry.price).Pairwise (· < ·)

/-- The documented order-book invariant. -/
def OrderBook.invariant (book : OrderBook) : Prop :=
  strictDesc book.bids ∧ strictAsc book.asks

/-- A message is well-formed when any snapshot it carries is already sorted
strictly on both sides, as venue snapshots are. -/
def wfMessage : OrderBookMessage → Prop
  | .Snapshot bids asks => strictDesc bids ∧ strictAsc asks
  | .AskUpdate _ => True
  | .BidUpdate _ => True

instance (l : List BookEntry) : Decidable (strictDesc l) := by
  unfold strictDesc; infer_instance

instance (l : List BookEntry) : Decidable (strictAsc l) := by
  unfold strictAsc; infer_instance

instance (book : OrderBook) : Decidable book.invariant := by
  unfold OrderBook.invariant; infer_instance

instance (m : OrderBookMessage) : Decidable (wfMessage m) := by
  cases m <;> · unfold wfMessage; infer_instance

example : OrderBook.new.best_bid = none := rfl

example :
    (OrderBook.new.update (.BidUpdate ⟨3, 1⟩)).update (.BidUpdate ⟨5, 2⟩) =
      ⟨[⟨5, 2⟩, ⟨3, 1⟩], []⟩ := by decide

/-- Paper wallet (`Wallet` in `src/exchange.rs`). -/
structure Wallet where
  base : ℚ
  quote : ℚ
deriving DecidableEq, Repr

/-- `Wallet::new`. -/
def Wallet.new (initial_amount : ℚ) : Wallet := ⟨0, initial_amount⟩

/-- `Wallet::rebalance`: halve the quote balance and convert the other half
into base at the given price. -/
def Wallet.rebalance (w : Wallet) (price : ℚ) : Wallet :=
  let quote := w.quote / 2
  ⟨quote / price, quote⟩

/-- The default `Exchange::buy` in `src/exchange.rs`; the exchange is modelled
by its taker fee.  The quote balance is clamped at zero on underflow. -/
def buy (fee amount price : ℚ) (wallet : Wallet) : Wallet :=
  let f := price * amount * fee
  let new_base_amount := wallet.base + amount
  let new_quote_amount := wallet.quote - price * amount - f
  ⟨new_base_amount, max new_quote_amount 0⟩

/-- The default `Exchange::sell` in `src/exchange.rs`. -/
def sell (fee amount price : ℚ) (wallet : Wallet) : Wallet :=
  let f := price * amount * fee
  ⟨wallet.base - amount, wallet.quote + price * amount - f⟩

/-- `calculate_spread` in `src/bot.rs`. -/
def calculate_spread (ask bid : ℚ) : ℚ :=
  (bid - ask) / ((bid + ask) / 2)

/-- `calculate_pl` in `src/bot.rs` (observational only). -/
def calculate_pl (starting_value curr_price : ℚ) (wallet1 wallet2 : Wallet) : ℚ × ℚ :=
  let sv := starting_value * 2
  let total := wallet1.quote + wallet2.quote + wallet1.base * curr_price
      + wallet2.base * curr_price
  (total / sv - 1, total)

/-- `is_profitable` in `src/bot.rs`. -/
def is_profitable (amount sell_price buy_price sell_fee buy_fee : ℚ) : Prop :=
  let sellv := amount * sell_price
  let buyv := amount * buy_price
  sellv - buyv - sellv * sell_fee - buyv * buy_fee > 0

instance (amount sell_price buy_price sell_fee buy_fee : ℚ) :
    Decidable (is_profitable amount sell_price buy_price sell_fee buy_fee) := by
  unfold is_profitable; infer_instance

/-- The traded amount computed by `run_strategy` in `src/bot.rs`: the minimum
of the buy-venue ask size, the sell-venue bid size and the sell-venue base
balance, then capped by the buy-venue quote budget. -/
def strategy_amount (exc1_prices exc2_prices : BookEntry)
    (exc1_wallet exc2_wallet : Wallet) : ℚ :=
  let amount := min exc1_prices.amount (min exc2_prices.amount exc2_wallet.base)
  let max_quote_amount := min exc1_wallet.quote (amount * exc1_prices.price)
  max_quote_amount / exc1_prices.price

/-- `run_strategy` in `src/bot.rs`: buy on exchange 1, sell on exchange 2,
skipping entirely (wallets returned unchanged) when the amount is zero or the
trade is not profitable.  Logging is omitted; the persistent-trade hooks do
not touch the wallets. -/
def run_strategy (exc1_fee exc2_fee : ℚ) (exc1_prices exc2_prices : BookEntry)
    (exc1_wallet exc2_wallet : Wallet) : Wallet × Wallet :=
  let amount := strategy_amount exc1_prices exc2_prices exc1_wallet exc2_wallet
  if amount = 0 ∨
      ¬ is_profitable amount exc2_prices.price exc1_prices.price exc2_fee exc1_fee then
    (exc1_wallet, exc2_wallet)
  else
    (buy exc1_fee amount exc1_prices.price exc1_wallet,
     sell exc2_fee amount exc2_prices.price exc2_wallet)

/-- Extract every venue's best ask, or `none` as soon as one is missing (the
closure passed to `min_by` in `run_bot` unwraps each ask). -/
def collectAsks : List (Option BookEntry × Option BookEntry) → Option (List BookEntry)
  | [] => some []
  | p :: rest =>
      match p.2, collectAsks rest with
      | some a, some rest' => some (a :: rest')
      | _, _ => none

/-- Extract every venue's best bid, or `none` as soon as one is missing. -/
def collectBids : List (Option BookEntry × Option BookEntry) → Option (List BookEntry)
  | [] => some []
  | p :: rest =>
      match p.1, collectBids rest with
      | some b, some rest' => some (b :: rest')
      | _, _ => none

/-- The `min_by` candidate-buy selection in `run_bot`: the venue with the
smallest best ask; on ties Rust's `Iterator::min_by` keeps the first
element. -/
def minAskFirst (best_prices : List (Option BookEntry × Option BookEntry)) :
    Option (Nat × BookEntry) :=
  match collectAsks best_prices with
  | none => none
  | some asks =>
      match asks.enum with
      | [] => none
      | x :: rest =>
          some (rest.foldl (fun acc y => if y.2.price < acc.2.price then y else acc) x)

/-- The `max_by` candidate-sell selection in `run_bot`: the venue with the
largest best bid; on ties Rust's `Iterator::max_by` keeps the last
element. -/
def maxBidLast (best_prices : List (Option BookEntry × Option BookEntry)) :
    Option (Nat × BookEntry) :=
  match collectBids best_prices with
  | none => none
  | some bids =>
      match bids.enum with
      | [] => none
      | x :: rest =>
          some (rest.foldl (fun acc y => if acc.2.price ≤ y.2.price then y else acc) x)

/-- The mutable state of the `run_bot` main loop in `src/bot.rs`. -/
structure BotState where
  wallets_initialized : Bool
  aevo_wallet : Wallet
  dydx_wallet : Wallet
  best_prices : List (Option BookEntry × Option BookEntry)
deriving DecidableEq, Repr

/-- The state of `run_bot` just before the first update arrives. -/
def initialBotState (starting_value : ℚ) : BotState :=
  ⟨false, Wallet.new starting_value, Wallet.new starting_value, [(none, none), (none, none)]⟩

/-- One iteration of the `while let` loop in `run_bot`, for the merged-stream
event `(key, update)`.  The result is `none` when the Rust code panics (an
`unwrap` on a missing quote). -/
def stepBot (aevo_fee dydx_fee : ℚ) (s : BotState) (key : Nat)
    (update : Option BookEntry × Option BookEntry) : Option BotState :=
  match update with
  | (some bid, some ask) =>
    let bp := s.best_prices.set key (some bid, some ask)
    if bp.all (fun p => p.1.isNone && p.2.isNone) then
      some { s with best_prices := bp }
    else
      match (bp.getD 0 (none, none)).1 with
      | none => none
      | some entry0 =>
        let curr_base_price := entry0.price
        let aw := if s.wallets_initialized then s.aevo_wallet
          else s.aevo_wallet.rebalance curr_base_price
        let dw := if s.wallets_initialized then s.dydx_wallet
          else s.dydx_wallet.rebalance curr_base_price
        match minAskFirst bp, maxBidLast bp with
        | some best_ask, some best_bid =>
          if best_bid.1 = best_ask.1 then
            some ⟨true, aw, dw, bp⟩
          else if 0 < calculate_spread best_ask.2.price best_bid.2.price then
            if best_ask.1 = 0 then
              let w := run_strategy aevo_fee dydx_fee best_ask.2 best_bid.2 aw dw
              some ⟨true, w.1, w.2, bp⟩
            else
              let w := run_strategy dydx_fee aevo_fee best_ask.2 best_bid.2 dw aw
              some ⟨true, w.2, w.1, bp⟩
          else
            some ⟨true, aw, dw, bp⟩
        | _, _ => none
  | _ => some s

/-- The body of `<Aevo as Stream>::poll_next` in `src/exchange/aevo.rs` for one
received raw message: translate, apply to the book, and emit the refreshed
`(best_bid, best_ask)` pair.  The result is `none` when the Rust code panics
(unknown message type, or indexing an empty bid array). -/
def aevoPoll (book : OrderBook) (msg_type : String) (bids asks : List BookEntry) :
    Option (OrderBook × (Option BookEntry × Option BookEntry)) :=
  let upd : Option OrderBookMessage :=
    if msg_type = "snapshot" then some (.Snapshot bids asks)
    else if msg_type = "update" then
      if asks.isEmpty then bids.head?.map OrderBookMessage.BidUpdate
      else asks.head?.map OrderBookMessage.AskUpdate
    else none
  match upd with
  | none => none
  | some u =>
      let b := book.update u
      some (b, (b.best_bid, b.best_ask))

/-- The body of `<DyDx as Stream>::poll_next` in `src/exchange/dydx.rs` for one
received raw message, whose `contents` map is modelled by its optional
`asks` and `bids` entries: translate, apply to the book, and emit the pair
`(best_ask, best_bid)` of the refreshed book.  The result is `none` when the
Rust code panics (indexing an empty level array). -/
def dydxPoll (book : OrderBook) (asks bids : Option (List BookEntry)) :
    Option (OrderBook × (Option BookEntry × Option BookEntry)) :=
  match asks, bids with
  | some askEntries, some bidEntries =>
      let b := book.update (.Snapshot bidEntries askEntries)
      some (b, (b.best_ask, b.best_bid))
  | none, some bidEntries =>
      match bidEntries.head? with
      | none => none
      | some e =>
          let b := book.update (.BidUpdate e)
          some (b, (b.best_ask, b.best_bid))
  | some askEntries, none =>
      match askEntries.head? with
      | none => none
      | some e =>
          let b := book.update (.AskUpdate e)
          some (b, (b.best_ask, b.best_bid))
  | none, none => some (book, (book.best_ask, book.best_bid))

lemma replaceFirstAmount_map_price (l : List BookEntry) (e : BookEntry) :
    (replaceFirstAmount l e).map BookEntry.price = l.map BookEntry.price := by
  induction l with
  | nil => rfl
  | cons b rest ih =>
      unfold replaceFirstAmount
      by_cases h : b.price = e.price
      · simp [h]
      · simp [h, ih]

lemma pairwise_gt_of_ge_ne {l : List ℚ} (hge : l.Pairwise (· ≥ ·))
    (hne : l.Pairwise (· ≠ ·)) : l.Pairwise (· > ·) :=
  (hge.and hne).imp fun h => lt_of_le_of_ne h.1 h.2.symm

lemma pairwise_lt_of_le_ne {l : List ℚ} (hle : l.Pairwise (· ≤ ·))
    (hne : l.Pairwise (· ≠ ·)) : l.Pairwise (· < ·) :=
  (hle.and hne).imp fun h => lt_of_le_of_ne h.1 h.2

lemma strictDesc_insertionSort (l : List BookEntry)
    (hne : (l.map BookEntry.price).Pairwise (· ≠ ·)) :
    strictDesc (List.insertionSort bidOrder l) := by
  unfold strictDesc
  have hsorted : (List.insertionSort bidOrder l).Pairwise bidOrder :=
    List.sorted_insertionSort bidOrder l
  have hge : ((List.insertionSort bidOrder l).map BookEntry.price).Pairwise (· ≥ ·) := by
    rw [List.pairwise_map]
    exact hsorted.imp fun h => h
  have hperm : (List.insertionSort bidOrder l).Perm l := List.perm_insertionSort _ _
  have hne' : ((List.insertionSort bidOrder l).map BookEntry.price).Pairwise (· ≠ ·) :=
    (List.Perm.pairwise_iff (fun h => h.symm) (hperm.map BookEntry.price)).mpr hne
  exact pairwise_gt_of_ge_ne hge hne'

lemma strictAsc_insertionSort (l : List BookEntry)
    (hne : (l.map BookEntry.price).Pairwise (· ≠ ·)) :
    strictAsc (List.insertionSort askOrder l) := by
  unfold strictAsc
  have hsorted : (List.insertionSort askOrder l).Pairwise askOrder :=
    List.sorted_insertionSort askOrder l
  have hle : ((List.insertionSort askOrder l).map BookEntry.price).Pairwise (· ≤ ·) := by
    rw [List.pairwise_map]
    exact hsorted.imp fun h => h
  have hperm : (List.insertionSort askOrder l).Perm l := List.perm_insertionSort _ _
  have hne' : ((List.insertionSort askOrder l).map BookEntry.price).Pairwise (· ≠ ·) :=
    (List.Perm.pairwise_iff (fun h => h.symm) (hperm.map BookEntry.price)).mpr hne
  exact pairwise_lt_of_le_ne hle hne'

lemma pairwise_ne_append_of_not_any {side : List BookEntry} {e : BookEntry}
    (hne : (side.map BookEntry.price).Pairwise (· ≠ ·))
    (hmem : ¬ side.any (fun b => decide (b.price = e.price)) = true) :
    ((side ++ [e]).map BookEntry.price).Pairwise (· ≠ ·) := by
  rw [List.map_append, List.pairwise_append]
  refine ⟨hne, by simp, ?_⟩
  intro x hx y hy
  simp only [List.map_cons, List.map_nil, List.mem_singleton] at hy
  subst hy
  rcases List.mem_map.mp hx with ⟨b, hb, rfl⟩
  intro hcontra
  exact hmem (List.any_eq_true.mpr ⟨b, hb, by simp [hcontra]⟩)

lemma strictDesc_applyLevel (side : List BookEntry) (e : BookEntry)
    (h : strictDesc side) : strictDesc (applyLevel bidOrder side e) := by
  unfold strictDesc at h
  unfold applyLevel
  by_cases h0 : e.amount = 0
  · rw [if_pos h0]
    exact List.Pairwise.sublist (List.Sublist.map _ (List.eraseP_sublist _)) h
  · rw [if_neg h0]
    by_cases hmem : side.any (fun b => decide (b.price = e.price)) = true
    · rw [if_pos hmem]
      unfold strictDesc
      rw [replaceFirstAmount_map_price]
      exact h
    · rw [if_neg hmem]
      exact strictDesc_insertionSort _
        (pairwise_ne_append_of_not_any (h.imp fun hab => ne_of_gt hab) hmem)

lemma strictAsc_applyLevel (side : List BookEntry) (e : BookEntry)
    (h : strictAsc side) : strictAsc (applyLevel askOrder side e) := by
  unfold strictAsc at h
  unfold applyLevel
  by_cases h0 : e.amount = 0
  · rw [if_pos h0]
    exact List.Pairwise.sublist (List.Sublist.map _ (List.eraseP_sublist _)) h
  · rw [if_neg h0]
    by_cases hmem : side.any (fun b => decide (b.price = e.price)) = true
    · rw [if_pos hmem]
      unfold strictAsc
      rw [replaceFirstAmount_map_price]
      exact h
    · rw [if_neg hmem]
      exact strictAsc_insertionSort _
        (pairwise_ne_append_of_not_any (h.imp fun hab => ne_of_lt hab) hmem)

lemma invariant_update {book : OrderBook} {m : OrderBookMessage}
    (hb : book.invariant) (hm : wfMessage m) : (book.update m).invariant := by
  cases m with
  | Snapshot bids asks => exact hm
  | BidUpdate e => exact ⟨strictDesc_applyLevel _ _ hb.1, hb.2⟩
  | AskUpdate e => exact ⟨hb.1, strictAsc_applyLevel _ _ hb.2⟩

lemma invariant_applyAll {book : OrderBook} (hb : book.invariant)
    (msgs : List OrderBookMessage) (hwf : ∀ m ∈ msgs, wfMessage m) :
    (book.applyAll msgs).invariant := by
  induction msgs generalizing book with
  | nil => exact hb
  | cons m rest ih =>
      exact ih (invariant_update hb (hwf m (by simp))) fun x hx => hwf x (by simp [hx])

/-- C9: `OrderBook::update` with a `BidUpdate` leaves the ask side exactly
unchanged, and with an `AskUpdate` leaves the bid side exactly unchanged. -/
theorem update_frame (book : OrderBook) (e e' : BookEntry) :
    (book.update (.BidUpdate e)).asks = book.asks ∧
      (book.update (.AskUpdate e')).bids = book.bids :=
  ⟨rfl, rfl⟩

/-- C6: `buy(amount, price)` adds `amount` to the base balance and subtracts
cost plus fee from the quote balance, clamping the quote at zero; in
particular `buy(10, 5)` with fee rate `1/100` applied to `{base 0, quote 100}`
yields `{base 10, quote 49.5}`. -/
theorem buy_semantics :
    (∀ (wallet : Wallet) (amount price fee_rate : ℚ),
        buy fee_rate amount price wallet =
          ⟨wallet.base + amount,
            max (wallet.quote - amount * price - amount * price * fee_rate) 0⟩) ∧
      buy (1/100) 10 5 ⟨0, 100⟩ = ⟨10, 99/2⟩ := by
  constructor
  · intro w a p f
    simp only [buy]
    have h : w.quote - p * a - p * a * f = w.quote - a * p - a * p * f := by ring
    rw [h]
  · norm_num [buy, max_eq_left]

/-- C10: for `ask + bid > 0`, `calculate_spread(ask, bid)` is strictly
positive exactly when the bid strictly exceeds the ask. -/
theorem calculate_spread_pos_iff (ask bid : ℚ) (h : 0 < ask + bid) :
    0 < calculate_spread ask bid ↔ ask < bid := by
  unfold calculate_spread
  constructor
  · intro hpos
    rcases div_pos_iff.mp hpos with ⟨h1, _⟩ | ⟨_, h2⟩
    · linarith
    · linarith
  · intro hlt
    exact div_pos (by linarith) (by linarith)

/-- Witness for `calculate_spread_pos_iff` at `ask = 1`, `bid = 2`. -/
theorem calculate_spread_pos_iff_witness :
    (0:ℚ) < 1 + 2 ∧ (0 < calculate_spread 1 2 ↔ (1:ℚ) < 2) :=
  ⟨by norm_num, calculate_spread_pos_iff 1 2 (by norm_num)⟩

/-- C4: `run_strategy` returns both wallets exactly as received when the
computed amount is zero or the net profitability is not strictly positive. -/
theorem run_strategy_skips (exc1_fee exc2_fee : ℚ) (p1 p2 : BookEntry)
    (w1 w2 : Wallet)
    (h : strategy_amount p1 p2 w1 w2 = 0 ∨
      ¬ is_profitable (strategy_amount p1 p2 w1 w2) p2.price p1.price exc2_fee exc1_fee) :
    run_strategy exc1_fee exc2_fee p1 p2 w1 w2 = (w1, w2) := by
  simp only [run_strategy]
  exact if_pos h

/-- Witness for `run_strategy_skips`: an empty quote budget forces a zero
amount, and both wallets come back untouched. -/
theorem run_strategy_skips_witness :
    run_strategy (1/100) (1/100) ⟨100, 1⟩ ⟨101, 1⟩ ⟨0, 0⟩ ⟨5, 5⟩ = (⟨0, 0⟩, ⟨5, 5⟩) :=
  run_strategy_skips _ _ _ _ _ _ (Or.inl (by norm_num [strategy_amount, min_def]))

/-- C7 counterexample: buying 1 unit at 100 on venue 1 and selling it at 110
on venue 2 (1% fees each) changes the aggregate quote by the raw spread minus
the fees, not by minus the fee sum alone. -/
theorem roundtrip_fee_only_counterexample :
    (buy (1/100) 1 100 ⟨0, 1000⟩).quote + (sell (1/100) 1 110 ⟨10, 0⟩).quote ≠
      1000 + 0 - (100 * 1 * (1/100) + 110 * 1 * (1/100)) := by
  norm_num [buy, sell, max_eq_left]

/-- C7 amended: buying X on venue 1 and selling X on venue 2 moves the base
fully (aggregate base unchanged), while the aggregate quote changes by exactly
`X*(sell_price − buy_price)` minus the sum of the two fees, provided the
buy-venue quote balance covers cost plus fee (so the zero-clamp is inert); in
particular at equal prices the aggregate quote drops by exactly the fee sum. -/
theorem roundtrip_conservation (w1 w2 : Wallet)
    (amount buy_price sell_price buy_fee sell_fee : ℚ)
    (hfund : buy_price * amount + buy_price * amount * buy_fee ≤ w1.quote) :
    (buy buy_fee amount buy_price w1).base + (sell sell_fee amount sell_price w2).base
        = w1.base + w2.base ∧
      (buy buy_fee amount buy_price w1).quote + (sell sell_fee amount sell_price w2).quote
        = w1.quote + w2.quote + amount * (sell_price - buy_price)
            - (buy_price * amount * buy_fee + sell_price * amount * sell_fee) := by
  simp only [buy, sell]
  constructor
  · ring
  · have h0 : (0:ℚ) ≤ w1.quote - buy_price * amount - buy_price * amount * buy_fee := by
      linarith
    rw [max_eq_left h0]
    ring

/-- Witness for `roundtrip_conservation` at equal prices: the aggregate quote
drops by exactly the two fees. -/
theorem roundtrip_conservation_witness :
    (buy (1/100) 1 100 ⟨0, 1000⟩).base + (sell (1/100) 1 100 ⟨10, 0⟩).base = 0 + 10 ∧
      (buy (1/100) 1 100 ⟨0, 1000⟩).quote + (sell (1/100) 1 100 ⟨10, 0⟩).quote
        = 1000 + 0 + 1 * (100 - 100) - (100 * 1 * (1/100) + 100 * 1 * (1/100)) :=
  roundtrip_conservation ⟨0, 1000⟩ ⟨10, 0⟩ 1 100 100 (1/100) (1/100) (by norm_num)

/-- C8: with a positive buy price and non-negative sizes and balances, the
traded amount of `run_strategy` never exceeds the sell-venue base balance, so
the sell leg leaves that balance non-negative. -/
theorem strategy_amount_within_base (exc1_fee exc2_fee : ℚ) (p1 p2 : BookEntry)
    (w1 w2 : Wallet) (hp : 0 < p1.price) (ha1 : 0 ≤ p1.amount) (ha2 : 0 ≤ p2.amount)
    (hb : 0 ≤ w2.base) (hq : 0 ≤ w1.quote) :
    strategy_amount p1 p2 w1 w2 ≤ w2.base ∧
      0 ≤ (run_strategy exc1_fee exc2_fee p1 p2 w1 w2).2.base := by
  have hbound : strategy_amount p1 p2 w1 w2 ≤ w2.base := by
    unfold strategy_amount
    have h2 : min p1.amount (min p2.amount w2.base) ≤ w2.base :=
      le_trans (min_le_right _ _) (min_le_right _ _)
    have h1 : min w1.quote (min p1.amount (min p2.amount w2.base) * p1.price)
        ≤ min p1.amount (min p2.amount w2.base) * p1.price := min_le_right _ _
    have h3 : min w1.quote (min p1.amount (min p2.amount w2.base) * p1.price) / p1.price
        ≤ min p1.amount (min p2.amount w2.base) * p1.price / p1.price := by gcongr
    rw [mul_div_cancel_right₀ _ (ne_of_gt hp)] at h3
    exact le_trans h3 h2
  refine ⟨hbound, ?_⟩
  simp only [run_strategy]
  split
  · exact hb
  · show 0 ≤ w2.base - strategy_amount p1 p2 w1 w2
    linarith [hbound]

/-- Witness for `strategy_amount_within_base` on a concrete book and wallet
pair. -/
theorem strategy_amount_within_base_witness :
    strategy_amount ⟨100, 2⟩ ⟨101, 3⟩ ⟨0, 1000⟩ ⟨5, 0⟩ ≤ (5:ℚ) ∧
      0 ≤ (run_strategy (1/100) (1/100) ⟨100, 2⟩ ⟨101, 3⟩ ⟨0, 1000⟩ ⟨5, 0⟩).2.base :=
  strategy_amount_within_base _ _ _ _ _ _ (by decide) (by decide) (by decide)
    (by decide) (by decide)

/-- C5 counterexample: with both venues posting an identical best bid of 100,
the `max_by` candidate-sell selection returns venue 1, not the earlier-indexed
venue 0 (Rust's `Iterator::max_by` keeps the last of equal maxima). -/
theorem tiebreak_counterexample :
    (maxBidLast [(some ⟨100, 5⟩, some ⟨100, 5⟩), (some ⟨100, 7⟩, some ⟨102, 3⟩)]).map Prod.fst
        ≠ some 0 ∧
      (maxBidLast [(some ⟨100, 5⟩, some ⟨100, 5⟩), (some ⟨100, 7⟩, some ⟨102, 3⟩)]).map Prod.fst
        = some 1 := by decide

/-- C5 amended: on an identical best ask the buy venue is the earlier-indexed
venue 0 (`min_by` keeps the first minimum), but on an identical best bid the
sell venue is the later-indexed venue 1 (`max_by` keeps the last maximum). -/
theorem tiebreak_selection (b0 a0 b1 a1 : BookEntry) :
    (a0.price = a1.price →
        (minAskFirst [(some b0, some a0), (some b1, some a1)]).map Prod.fst = some 0) ∧
      (b0.price = b1.price →
        (maxBidLast [(some b0, some a0), (some b1, some a1)]).map Prod.fst = some 1) := by
  constructor
  · intro h
    simp [minAskFirst, collectAsks, List.enum, List.enumFrom, h]
  · intro h
    simp [maxBidLast, collectBids, List.enum, List.enumFrom, h]

/-- Witness for `tiebreak_selection` on concrete tied books. -/
theorem tiebreak_selection_witness :
    (minAskFirst [(some ⟨9, 1⟩, some ⟨10, 1⟩), (some ⟨9, 2⟩, some ⟨10, 2⟩)]).map Prod.fst
        = some 0 ∧
      (maxBidLast [(some ⟨9, 1⟩, some ⟨10, 1⟩), (some ⟨9, 2⟩, some ⟨10, 2⟩)]).map Prod.fst
        = some 1 :=
  ⟨(tiebreak_selection ⟨9, 1⟩ ⟨10, 1⟩ ⟨9, 2⟩ ⟨10, 2⟩).1 rfl,
   (tiebreak_selection ⟨9, 1⟩ ⟨10, 1⟩ ⟨9, 2⟩ ⟨10, 2⟩).2 rfl⟩

/-- C1: when the very first complete two-sided update arrives from venue 1
while venue 0 has not yet produced any quote, the loop body does not skip the
engine pass: the incomplete-book gate only fires when every venue is unknown,
and the pass then panics (`none`) unwrapping venue 0's absent best bid. -/
theorem stepBot_panics_one_venue_ready (aevo_fee dydx_fee starting_value : ℚ) :
    stepBot aevo_fee dydx_fee (initialBotState starting_value) 1
      (some ⟨99, 1⟩, some ⟨101, 1⟩) = none := rfl

/-- C2: on a parsed DyDx snapshot the adapter emits the pair
`(best_ask, best_bid)` of the refreshed book — the ask first — rather than the
`(best_bid, best_ask)` order of the adapter contract (which Aevo and the
consumer in `run_bot` use). -/
theorem dydx_emits_ask_first :
    (dydxPoll OrderBook.new (some [⟨101, 2⟩]) (some [⟨99, 1⟩])).map Prod.snd =
        some (some ⟨101, 2⟩, some ⟨99, 1⟩) ∧
      (OrderBook.new.update (.Snapshot [⟨99, 1⟩] [⟨101, 2⟩])).best_bid = some ⟨99, 1⟩ ∧
      (OrderBook.new.update (.Snapshot [⟨99, 1⟩] [⟨101, 2⟩])).best_ask = some ⟨101, 2⟩ :=
  ⟨rfl, rfl, rfl⟩

/-- C3 counterexample: a snapshot is applied wholesale without re-sorting, so
a snapshot whose bid levels arrive in ascending order breaks the
strictly-descending bid invariant immediately. -/
theorem snapshot_breaks_invariant :
    ¬ (OrderBook.new.update (.Snapshot [⟨1, 1⟩, ⟨2, 1⟩] [])).invariant := by decide

/-- C3 amended: for every finite message sequence in which each snapshot is
already well-formed (bids strictly descending, asks strictly ascending, hence
duplicate-free), applying the sequence to the empty book preserves the
invariant after every single application — bids strictly descending, asks
strictly ascending, no duplicate prices on either side. -/
theorem orderBook_invariant_holds (msgs : List OrderBookMessage)
    (hwf : ∀ m ∈ msgs, wfMessage m) :
    (OrderBook.new.applyAll msgs).invariant :=
  invariant_applyAll (by decide) msgs hwf

/-- Witness for `orderBook_invariant_holds` on a concrete sequence exercising
a snapshot, an insertion, an in-place amount replacement and a removal. -/
theorem orderBook_invariant_holds_witness :
    (OrderBook.new.applyAll
      [.Snapshot [⟨2, 1⟩, ⟨1, 1⟩] [⟨3, 1⟩, ⟨4, 1⟩], .BidUpdate ⟨5, 2⟩,
        .AskUpdate ⟨3, 7⟩, .BidUpdate ⟨2, 0⟩]).invariant :=
  orderBook_invariant_holds _ (by decide)

end ArbBot
